import Mathlib

/-!
Shallow embedding of `kagi-translate-file.py` (a text-file translation
pipeline: chunker, per-chunk translation client with retry, bounded-worker
dispatcher, and order-preserving assembler), together with theorems checking
the natural-language specification against the code.

Conventions of the embedding:
* Python strings are Lean `String`s (`len` is `String.length`);
* Python `text.split('\n')` is `splitlines` below, Python `'\n'.join(xs)` is
  `joinlines` below, both implemented by structural recursion so that they
  evaluate inside the kernel;
* Python `None`-or-value results are `Option`; Python truthiness of a string
  or of an optional string is `truthyStr` / `truthyOpt`;
* the remote HTTP interaction of one attempt is abstracted as an `ApiEvent`
  (rate-limited response, other non-ok response, an exception raised during
  the call or while parsing the payload, or a parsed success), and a run of
  the client is driven by a script `Nat → ApiEvent` giving the event observed
  by each successive attempt;
* sleeps are not performed; the deterministic error-backoff durations
  (`time.sleep(2 * tries)`) are recorded in a trace so linear backoff is
  visible.  The randomized rate-limit wait and pre-call jitter have no
  observable effect on results and are not modelled.
-/

/-- Model of Python `text.split('\n')`: split a character list at each
newline, keeping empty pieces, with `acc` the (reversed) characters of the
piece being accumulated.  `''.split('\n') = ['']` holds, as in Python. -/
def splitLinesAux : List Char → List Char → List String
  | [], acc => [String.mk acc.reverse]
  | c :: cs, acc =>
      if c = '\n' then String.mk acc.reverse :: splitLinesAux cs []
      else splitLinesAux cs (c :: acc)

/-- Model of Python `text.split('\n')` on a `String`. -/
def splitlines (text : String) : List String :=
  splitLinesAux text.data []

/-- Model of Python `'\n'.join(xs)`. -/
def joinlines : List String → String
  | [] => ""
  | [s] => s
  | s :: t :: rest => s ++ "\n" ++ joinlines (t :: rest)

/-- One iteration of the loop body of `split_text_into_chunks`
(source lines 39–48): state is `(chunks, current_chunk)`.
`if len(current_chunk) + len(line) + 1 > max_length and current_chunk:`
closes the buffer and restarts it with `line`; otherwise the line is appended,
preceded by a newline when the buffer is non-empty. -/
def chunkStep (max_length : Nat) (st : List String × String) (line : String) :
    List String × String :=
  if max_length < st.2.length + line.length + 1 ∧ st.2 ≠ "" then
    (st.1 ++ [st.2], line)
  else if st.2 ≠ "" then
    (st.1, st.2 ++ "\n" ++ line)
  else
    (st.1, st.2 ++ line)

/-- Final flush of `split_text_into_chunks` (source lines 50–52):
`if current_chunk: chunks.append(current_chunk)`. -/
def chunkFlush (st : List String × String) : List String :=
  st.1 ++ (if st.2 ≠ "" then [st.2] else [])

/-- Embedding of `split_text_into_chunks(text, max_length)`
(source lines 34–54): fold the loop body over the lines, then flush the
final non-empty buffer. -/
def split_text_into_chunks (text : String) (max_length : Nat) : List String :=
  chunkFlush ((splitlines text).foldl (chunkStep max_length) ([], ""))

-- Basic string helpers used throughout.

theorem string_mk_append (a b : List Char) :
    String.mk a ++ String.mk b = String.mk (a ++ b) := rfl

theorem string_empty_append (s : String) : "" ++ s = s :=
  String.empty_append s

theorem string_append_ne_empty_left (a b : String) (h : a ≠ "") :
    a ++ b ≠ "" := by
  intro hab
  apply h
  have hlen : (a ++ b).length = a.length + b.length := String.length_append a b
  have h0 : a.length = 0 := by
    have : (a ++ b).length = 0 := by rw [hab]; rfl
    omega
  have : a.data.length = 0 := h0
  have hd : a.data = [] := List.length_eq_zero.mp this
  cases a
  simp_all

/-- `splitLinesAux` always produces at least one piece. -/
theorem splitLinesAux_ne_nil (cs : List Char) (acc : List Char) :
    splitLinesAux cs acc ≠ [] := by
  induction cs generalizing acc with
  | nil => simp [splitLinesAux]
  | cons c cs ih =>
      by_cases h : c = '\n' <;> simp [splitLinesAux, h, ih]

theorem joinlines_cons_of_ne_nil (s : String) (l : List String) (h : l ≠ []) :
    joinlines (s :: l) = s ++ "\n" ++ joinlines l := by
  cases l with
  | nil => exact absurd rfl h
  | cons t rest => rfl

/-- Re-joining the pieces of `splitLinesAux` with newlines restores the
original characters. -/
theorem joinlines_splitLinesAux (cs : List Char) (acc : List Char) :
    joinlines (splitLinesAux cs acc) = String.mk (acc.reverse ++ cs) := by
  induction cs generalizing acc with
  | nil => simp [splitLinesAux, joinlines]
  | cons c cs ih =>
      by_cases h : c = '\n'
      · subst h
        rw [splitLinesAux, if_pos rfl,
          joinlines_cons_of_ne_nil _ _ (splitLinesAux_ne_nil cs []), ih []]
        have : String.mk acc.reverse ++ "\n" ++ String.mk ([] ++ cs)
            = String.mk (acc.reverse ++ '\n' :: cs) := by
          show String.mk acc.reverse ++ String.mk ['\n'] ++ String.mk cs = _
          rw [string_mk_append, string_mk_append]
          simp
        simpa using this
      · rw [splitLinesAux, if_neg h, ih (c :: acc)]
        simp

/-- Python round trip: `'\n'.join(text.split('\n')) == text`. -/
theorem joinlines_splitlines (text : String) :
    joinlines (splitlines text) = text := by
  rw [splitlines, joinlines_splitLinesAux]
  cases text
  simp

/-- Joining is invariant under merging two adjacent pieces that are already
separated by an explicit newline. -/
theorem joinlines_merge (xs : List String) (a b : String) (ys : List String) :
    joinlines (xs ++ (a ++ "\n" ++ b) :: ys) = joinlines (xs ++ a :: b :: ys) := by
  induction xs with
  | nil =>
      cases ys with
      | nil => rfl
      | cons y ys' => simp [joinlines, String.append_assoc]
  | cons x xs' ih =>
      rw [List.cons_append, List.cons_append,
        joinlines_cons_of_ne_nil x _ (by simp),
        joinlines_cons_of_ne_nil x _ (by simp), ih]

/-- Invariant of the chunking loop: starting from a non-empty buffer, if all
remaining lines are non-empty then the buffer stays non-empty and the
newline-join of "emitted chunks plus buffer" equals the newline-join of
"previously absorbed material plus remaining lines". -/
theorem chunk_fold_join (max_length : Nat) :
    ∀ (ls : List String) (chunks : List String) (cur : String),
      cur ≠ "" → (∀ l ∈ ls, l ≠ "") →
      (ls.foldl (chunkStep max_length) (chunks, cur)).2 ≠ "" ∧
      joinlines ((ls.foldl (chunkStep max_length) (chunks, cur)).1
          ++ [(ls.foldl (chunkStep max_length) (chunks, cur)).2])
        = joinlines ((chunks ++ [cur]) ++ ls) := by
  intro ls
  induction ls with
  | nil =>
      intro chunks cur hcur _
      refine ⟨hcur, ?_⟩
      simp
  | cons l ls' ih =>
      intro chunks cur hcur hl
      have hlne : l ≠ "" := hl l (List.mem_cons_self l ls')
      have hls' : ∀ x ∈ ls', x ≠ "" := fun x hx => hl x (List.mem_cons_of_mem l hx)
      rw [List.foldl_cons]
      by_cases hcond : max_length < cur.length + l.length + 1
      · have hstep : chunkStep max_length (chunks, cur) l = (chunks ++ [cur], l) := by
          simp [chunkStep, hcond, hcur]
        rw [hstep]
        have := ih (chunks ++ [cur]) l hlne hls'
        refine ⟨this.1, ?_⟩
        rw [this.2]
        simp [List.append_assoc]
      · have hstep : chunkStep max_length (chunks, cur) l = (chunks, cur ++ "\n" ++ l) := by
          simp [chunkStep, hcond, hcur]
        rw [hstep]
        have hne : cur ++ "\n" ++ l ≠ "" :=
          string_append_ne_empty_left _ _ (string_append_ne_empty_left _ _ hcur)
        have := ih chunks (cur ++ "\n" ++ l) hne hls'
        refine ⟨this.1, ?_⟩
        rw [this.2]
        have : (chunks ++ [cur ++ "\n" ++ l]) ++ ls' = chunks ++ (cur ++ "\n" ++ l) :: ls' := by
          simp
        rw [this, joinlines_merge]
        simp

/-- Invariant of the chunking loop used for the max-length bound: every
emitted chunk is within the bound or is a single original line, and the
buffer is within the bound, a single original line, or empty. -/
theorem chunk_fold_bound (max_length : Nat) (L : List String) :
    ∀ (ls : List String) (st : List String × String),
      (∀ l ∈ ls, l ∈ L) →
      (∀ c ∈ st.1, c.length ≤ max_length ∨ c ∈ L) →
      (st.2.length ≤ max_length ∨ st.2 ∈ L ∨ st.2 = "") →
      (∀ c ∈ (ls.foldl (chunkStep max_length) st).1, c.length ≤ max_length ∨ c ∈ L) ∧
      ((ls.foldl (chunkStep max_length) st).2.length ≤ max_length ∨
        (ls.foldl (chunkStep max_length) st).2 ∈ L ∨
        (ls.foldl (chunkStep max_length) st).2 = "") := by
  intro ls
  induction ls with
  | nil => intro st _ h2 h3; exact ⟨h2, h3⟩
  | cons l ls' ih =>
      intro st hl h2 h3
      have hlL : l ∈ L := hl l (List.mem_cons_self l ls')
      have hls' : ∀ x ∈ ls', x ∈ L := fun x hx => hl x (List.mem_cons_of_mem l hx)
      rw [List.foldl_cons]
      by_cases hcur : st.2 = ""
      · have hstep : chunkStep max_length st l = (st.1, st.2 ++ l) := by
          simp [chunkStep, hcur]
        rw [hstep]
        refine ih _ hls' h2 ?_
        rw [hcur, string_empty_append]
        exact Or.inr (Or.inl hlL)
      · by_cases hcond : max_length < st.2.length + l.length + 1
        · have hstep : chunkStep max_length st l = (st.1 ++ [st.2], l) := by
            simp [chunkStep, hcond, hcur]
          rw [hstep]
          refine ih _ hls' ?_ (Or.inr (Or.inl hlL))
          intro c hc
          rcases List.mem_append.mp hc with hc | hc
          · exact h2 c hc
          · have : c = st.2 := by simpa using hc
            subst this
            rcases h3 with h | h | h
            · exact Or.inl h
            · exact Or.inr h
            · exact absurd h hcur
        · have hstep : chunkStep max_length st l = (st.1, st.2 ++ "\n" ++ l) := by
            simp [chunkStep, hcond, hcur]
          rw [hstep]
          refine ih _ hls' h2 (Or.inl ?_)
          show (st.2 ++ "\n" ++ l).length ≤ max_length
          have hlen : (st.2 ++ "\n" ++ l).length = st.2.length + 1 + l.length := by
            rw [String.length_append, String.length_append]
            rfl
          omega

/-- Claim C2, counterexample: for the input text consisting of a single
newline and `max_length = 1`, every line (both are empty) has length at most
`max_length`, yet the chunker returns no chunks at all, so re-joining the
chunks with newline separators yields the empty string, not the original
text.  The chunker silently drops empty lines at buffer boundaries. -/
theorem claim_C2_counterexample :
    (1 ≤ 1 ∧ ∀ l ∈ splitlines ("\n"), l.length ≤ 1) ∧
    joinlines (split_text_into_chunks ("\n") 1) ≠ "\n" := by
  decide

/-- Claim C2 (amended): for every input text and `max_length ≥ 1` such that
no line exceeds `max_length` and, additionally, the text is empty or has no
empty lines, joining the chunks returned by
`split_text_into_chunks(text, max_length)` in index order with a single
newline separator yields exactly the original text. -/
theorem claim_C2_amended_rejoin (text : String) (max_length : Nat)
    (hmax : 1 ≤ max_length)
    (hlen : ∀ l ∈ splitlines text, l.length ≤ max_length)
    (hne : text = "" ∨ ∀ l ∈ splitlines text, l ≠ "") :
    joinlines (split_text_into_chunks text max_length) = text := by
  rcases hne with hempty | hne
  · subst hempty
    have h1 : splitlines "" = [""] := rfl
    show joinlines (chunkFlush ((splitlines "").foldl (chunkStep max_length) ([], ""))) = ""
    rw [h1]
    simp [chunkStep, chunkFlush, joinlines]
  · rcases hls : splitlines text with _ | ⟨l, ls⟩
    · exact absurd hls (splitLinesAux_ne_nil _ _)
    · have hlne : l ≠ "" := by
        rw [hls] at hne
        exact hne l (List.mem_cons_self l ls)
      have hlsne : ∀ x ∈ ls, x ≠ "" := by
        rw [hls] at hne
        exact fun x hx => hne x (List.mem_cons_of_mem l hx)
      have hfirst : chunkStep max_length ([], "") l = ([], l) := by
        simp [chunkStep, string_empty_append]
      have hjoin := chunk_fold_join max_length ls [] l hlne hlsne
      show joinlines (chunkFlush ((splitlines text).foldl (chunkStep max_length) ([], ""))) = text
      rw [hls, List.foldl_cons, hfirst, chunkFlush,
        if_pos hjoin.1, hjoin.2]
      have harr : (([] : List String) ++ [l]) ++ ls = l :: ls := by simp
      rw [harr, ← hls, joinlines_splitlines]

/-- Witness for claim C2 (amended) at the concrete input `"ab\ncd"` with
`max_length = 5`: the two lines fit in one chunk and the join restores the
text. -/
theorem claim_C2_amended_rejoin_witness :
    joinlines (split_text_into_chunks ("ab\ncd") 5) = "ab\ncd" :=
  claim_C2_amended_rejoin ("ab\ncd") 5 (by decide) (by decide) (Or.inr (by decide))

/-- Claim C4: for every input text and every `max_length ≥ 1`, no chunk
returned by `split_text_into_chunks` has character length exceeding
`max_length`, except a chunk that consists of exactly one original line (a
member of `text.split('\n')`) whose own length exceeds `max_length`. -/
theorem claim_C4_oversized_chunk_is_single_line (text : String) (max_length : Nat)
    (hmax : 1 ≤ max_length) :
    ∀ c ∈ split_text_into_chunks text max_length,
      c.length ≤ max_length ∨ (c ∈ splitlines text ∧ max_length < c.length) := by
  intro c hc
  have hb := chunk_fold_bound max_length (splitlines text) (splitlines text)
      ([], "") (fun l hl => hl)
      (by intro x hx; simp at hx)
      (Or.inr (Or.inr rfl))
  rw [show split_text_into_chunks text max_length
      = chunkFlush ((splitlines text).foldl (chunkStep max_length) ([], "")) from rfl,
    chunkFlush] at hc
  rcases List.mem_append.mp hc with h1 | h2
  · rcases hb.1 c h1 with h | h
    · exact Or.inl h
    · by_cases hl : c.length ≤ max_length
      · exact Or.inl hl
      · exact Or.inr ⟨h, by omega⟩
  · by_cases hcur : ((splitlines text).foldl (chunkStep max_length) ([], "")).2 = ""
    · rw [if_neg (by simpa using hcur)] at h2
      simp at h2
    · rw [if_pos hcur] at h2
      have hceq : c = ((splitlines text).foldl (chunkStep max_length) ([], "")).2 := by
        simpa using h2
      rcases hb.2 with h | h | h
      · exact Or.inl (hceq ▸ h)
      · by_cases hl : c.length ≤ max_length
        · exact Or.inl hl
        · exact Or.inr ⟨hceq ▸ h, by omega⟩
      · exact absurd h hcur

/-- Witness for claim C4 at the concrete input `"aaa\nb"` with
`max_length = 2`: the oversized chunk `"aaa"` is one original line longer
than `max_length`. -/
theorem claim_C4_oversized_chunk_is_single_line_witness :
    "aaa".length ≤ 2 ∨ ("aaa" ∈ splitlines ("aaa\nb") ∧ 2 < "aaa".length) :=
  claim_C4_oversized_chunk_is_single_line ("aaa\nb") 2 (by decide) "aaa" (by decide)

/-- Outcome observed by one remote-call attempt of `translate_chunk`
(source lines 88–128): an HTTP 429 rate-limit response, a non-ok non-429
response, an exception (transport failure, or a malformed payload breaking
`response.json()` / `json.loads(data["data"])[2]`), or a parsed success. -/
inductive ApiEvent
  | rateLimited
  | badStatus
  | exn
  | success (t : String)
deriving DecidableEq

/-- Observable trace of one `translate_chunk` call: the Python return value
(`none` models the bare `None` produced when the `while` loop is exhausted by
rate limiting and control falls off the end of the function), the number of
`session.post` attempts performed, and the deterministic error-backoff sleep
durations `2 * tries` in order. -/
structure ChunkCallTrace where
  result : Option (Nat × Option String)
  attempts : Nat
  backoffSleeps : List Nat
deriving DecidableEq

/-- Embedding of the retry loop of `translate_chunk` (source lines 85–128).
`tries` is the Python counter; `fuel` maintains `fuel = max_tries - tries`,
so the loop guard `tries < max_tries` is exactly `fuel > 0` and the
recursion mirrors the loop faithfully.  Branches, in source order: status
429 increments `tries` and continues; a non-ok status returns
`(chunk_idx, None)` at once; a parsed payload returns the translation; an
exception increments `tries`, sleeps `2 * tries` and retries when
`tries < max_tries`, else returns `(chunk_idx, None)`. -/
def translateChunkAux (script : Nat → ApiEvent) (chunk_idx max_tries : Nat) :
    Nat → Nat → ChunkCallTrace
  | _, 0 => ⟨none, 0, []⟩
  | tries, fuel + 1 =>
    match script tries with
    | ApiEvent.rateLimited =>
        let r := translateChunkAux script chunk_idx max_tries (tries + 1) fuel
        ⟨r.result, r.attempts + 1, r.backoffSleeps⟩
    | ApiEvent.badStatus => ⟨some (chunk_idx, none), 1, []⟩
    | ApiEvent.success t => ⟨some (chunk_idx, some t), 1, []⟩
    | ApiEvent.exn =>
        if tries + 1 < max_tries then
          let r := translateChunkAux script chunk_idx max_tries (tries + 1) fuel
          ⟨r.result, r.attempts + 1, 2 * (tries + 1) :: r.backoffSleeps⟩
        else ⟨some (chunk_idx, none), 1, []⟩

/-- Embedding of `translate_chunk` with the source's `tries = 0`,
`max_tries = 3` (source lines 85–86). -/
def translate_chunk (script : Nat → ApiEvent) (chunk_idx : Nat) : ChunkCallTrace :=
  translateChunkAux script chunk_idx 3 0 3

/-- The number of attempts is bounded by the remaining fuel. -/
theorem translateChunkAux_attempts_le (script : Nat → ApiEvent) (idx mt : Nat) :
    ∀ (fuel tries : Nat), (translateChunkAux script idx mt tries fuel).attempts ≤ fuel := by
  intro fuel
  induction fuel with
  | zero => intro tries; simp [translateChunkAux]
  | succ n ih =>
      intro tries
      cases h : script tries with
      | rateLimited =>
          have := ih (tries + 1)
          simp only [translateChunkAux, h]
          omega
      | badStatus => simp [translateChunkAux, h]
      | success t => simp [translateChunkAux, h]
      | exn =>
          by_cases hlt : tries + 1 < mt
          · have := ih (tries + 1)
            simp only [translateChunkAux, h, if_pos hlt]
            omega
          · simp [translateChunkAux, h, hlt]

/-- Claim C6: for every chunk, the retry loop of the Translation Client
terminates (it is a total function of the event script) and performs at most
3 remote-call attempts; rate-limit retries and error retries consume the
same `tries` counter, witnessed by a mixed script (429, then an exception,
then 429) exhausting all 3 attempts. -/
theorem claim_C6_attempt_cap :
    (∀ (script : Nat → ApiEvent) (chunk_idx : Nat),
        (translate_chunk script chunk_idx).attempts ≤ 3) ∧
    (∀ (script : Nat → ApiEvent) (chunk_idx : Nat),
        script 0 = ApiEvent.rateLimited → script 1 = ApiEvent.exn →
        script 2 = ApiEvent.rateLimited →
        (translate_chunk script chunk_idx).attempts = 3) := by
  constructor
  · intro script chunk_idx
    exact translateChunkAux_attempts_le script chunk_idx 3 3 0
  · intro script chunk_idx h0 h1 h2
    simp [translate_chunk, translateChunkAux, h0, h1, h2]

/-- Witness for claim C6 at a concrete mixed script: rate-limit and error
retries together exhaust exactly the shared 3-attempt budget. -/
theorem claim_C6_attempt_cap_witness :
    (translate_chunk (fun i => if i = 1 then ApiEvent.exn else ApiEvent.rateLimited) 0).attempts = 3 :=
  claim_C6_attempt_cap.2 (fun i => if i = 1 then ApiEvent.exn else ApiEvent.rateLimited) 0
    rfl rfl rfl

/-- Claim C3, counterexample: a chunk whose very first attempt receives a
non-success, non-429 response is returned as a Failure after exactly one
attempt, with no backoff sleep and no retry — not "only after the 3 attempts
are exhausted" as the claim states (source line 108–111 returns
immediately). -/
theorem claim_C3_counterexample :
    translate_chunk (fun _ => ApiEvent.badStatus) 0
      = ⟨some (0, none), 1, []⟩ ∧ (1 : Nat) < 3 := by
  decide

/-- Claim C3 (amended): a malformed payload or transport exception is
counted as a failed attempt and, before the 3-attempt cap is exhausted, the
client sleeps a linearly increasing backoff (2s then 4s) and retries,
returning Failure for the chunk only after the attempts are exhausted; a
non-success response other than rate-limiting, however, returns Failure for
that chunk immediately, without consuming further attempts. -/
theorem claim_C3_amended_error_retry :
    (∀ (script : Nat → ApiEvent) (idx : Nat),
        script 0 = ApiEvent.badStatus →
        translate_chunk script idx = ⟨some (idx, none), 1, []⟩) ∧
    (∀ (script : Nat → ApiEvent) (idx : Nat),
        (∀ i, script i = ApiEvent.exn) →
        translate_chunk script idx = ⟨some (idx, none), 3, [2, 4]⟩) ∧
    (∀ (script : Nat → ApiEvent) (idx : Nat) (t : String),
        script 0 = ApiEvent.exn → script 1 = ApiEvent.success t →
        translate_chunk script idx = ⟨some (idx, some t), 2, [2]⟩) := by
  refine ⟨?_, ?_, ?_⟩
  · intro script idx h0
    simp [translate_chunk, translateChunkAux, h0]
  · intro script idx h
    simp [translate_chunk, translateChunkAux, h 0, h 1, h 2]
  · intro script idx t h0 h1
    simp [translate_chunk, translateChunkAux, h0, h1]

/-- Witness for claim C3 (amended) at concrete scripts: immediate failure on
a bad status, failure with backoffs 2 and 4 after three exceptions, and a
success on the second attempt after one exception. -/
theorem claim_C3_amended_error_retry_witness :
    translate_chunk (fun _ => ApiEvent.badStatus) 1 = ⟨some (1, none), 1, []⟩ ∧
    translate_chunk (fun _ => ApiEvent.exn) 2 = ⟨some (2, none), 3, [2, 4]⟩ ∧
    translate_chunk (fun i => if i = 0 then ApiEvent.exn else ApiEvent.success ("T")) 0
      = ⟨some (0, some ("T")), 2, [2]⟩ :=
  ⟨claim_C3_amended_error_retry.1 _ 1 rfl,
   claim_C3_amended_error_retry.2.1 _ 2 (fun _ => rfl),
   claim_C3_amended_error_retry.2.2 _ 0 ("T") rfl rfl⟩

/-- Python truthiness of a string: non-empty. -/
def truthyStr (s : String) : Bool := s != ""

/-- Python truthiness of an optional string (`None` or `str`). -/
def truthyOpt : Option String → Bool
  | none => false
  | some s => truthyStr s

/-- State of the result-collection loop of `translate_file`
(source lines 148–165): the `translated_chunks` slot list, the chunk
indices announced as failed (in completion order), and a raised exception
(if any) that aborts the loop. -/
structure CollectState where
  slots : List (Option String)
  failed : List Nat
  err : Option String
deriving DecidableEq

/-- Embedding of the `for future in as_completed(futures)` loop
(source lines 160–165), processing future results in completion order.
`idx, result = future.result()` on a bare `None` raises a `TypeError`
that propagates out of the loop; a truthy result is stored at its own
index (`translated_chunks[idx] = result`); a falsy one is announced as a
failed chunk. -/
def collectFutures : CollectState → List (Option (Nat × Option String)) → CollectState
  | st, [] => st
  | st, none :: _ =>
      { st with err := some ("TypeError: cannot unpack non-iterable NoneType object") }
  | st, some (idx, result) :: rest =>
      if truthyOpt result then
        collectFutures { st with slots := st.slots.set idx result } rest
      else
        collectFutures { st with failed := st.failed ++ [idx] } rest

/-- Embedding of the assembly filter (source line 168):
`[chunk for chunk in translated_chunks if chunk]`. -/
def keptChunks (slots : List (Option String)) : List String :=
  slots.filterMap (fun c => if truthyOpt c then c else none)

/-- Embedding of the `max_requests` cap (source lines 142–143):
`if max_requests > 0: chunks = chunks[:max_requests]`. -/
def submittedChunks (chunks : List String) (max_requests : Int) : List String :=
  if max_requests > 0 then chunks.take max_requests.toNat else chunks

/-- Result of one whole-file run: either the output file was written with
the given content, or the run aborted in the outer exception handler
(source lines 175–176) printing the error and writing nothing. -/
inductive RunOutcome
  | wrote (content : String)
  | aborted (msg : String)
deriving DecidableEq

/-- Embedding of `translate_file` (source lines 130–176).  File reading is
abstracted as `readResult` (contents or a raised I/O error), the worker
pool as `client` (the value of `translate_chunk` for chunk index `i` with
text `c`) together with a completion order over the chunk indices, and
file writing as `writeOk`.  Returns the run outcome and the indices
announced as failed. -/
def translate_file (readResult : Except String String) (max_length : Nat)
    (max_requests : Int) (client : Nat → String → Option (Nat × Option String))
    (order : List Nat) (writeOk : Bool) : RunOutcome × List Nat :=
  match readResult with
  | Except.error e => (RunOutcome.aborted e, [])
  | Except.ok text =>
      let chunks := submittedChunks (split_text_into_chunks text max_length) max_requests
      let completed := order.filterMap (fun i => (chunks[i]?).map (fun c => client i c))
      let st := collectFutures ⟨List.replicate chunks.length none, [], none⟩ completed
      match st.err with
      | some e => (RunOutcome.aborted e, st.failed)
      | none =>
          if writeOk then (RunOutcome.wrote (joinlines (keptChunks st.slots)), st.failed)
          else (RunOutcome.aborted ("write error"), st.failed)

/-- The dispatcher-with-mock-client harness from the spec's testable
properties: `n` chunks, outcome `f i` for chunk `i` (`none` = Failure),
futures completing in the order `order`, collected exactly as in
`translate_file`. -/
def dispatchRun (n : Nat) (f : Nat → Option String) (order : List Nat) : CollectState :=
  collectFutures ⟨List.replicate n none, [], none⟩ (order.map (fun i => some (i, f i)))

/-- One slot write of the collection loop, as a function of the chunk
index: `translated_chunks[idx] = result` guarded by truthiness. -/
def writeIdx (f : Nat → Option String) (slots : List (Option String)) (i : Nat) :
    List (Option String) :=
  if truthyOpt (f i) then slots.set i (f i) else slots

/-- Result of `main` (source lines 178–199): either it printed the
missing-token message and returned before any work, or it ran
`translate_file` with the resolved token. -/
inductive MainOutcome
  | noToken
  | ran (token : String) (run : RunOutcome × List Nat)
deriving DecidableEq

/-- Embedding of `main` (source lines 178–199), with argument parsing
abstracted: `cliToken` is `arguments['--token']` (`None` when not
supplied) and `envToken` is the `KAGI_TOKEN` environment variable.
`if not token: token = os.environ.get('KAGI_TOKEN', '')`, and if the
result is still falsy the program prints a message and returns. -/
def main_model (cliToken envToken : Option String)
    (readResult : Except String String) (max_length : Nat) (max_requests : Int)
    (client : Nat → String → Option (Nat × Option String)) (order : List Nat)
    (writeOk : Bool) : MainOutcome :=
  let token :=
    match cliToken with
    | none => envToken.getD ""
    | some t => if t = "" then envToken.getD "" else t
  if token = "" then MainOutcome.noToken
  else MainOutcome.ran token
    (translate_file readResult max_length max_requests client order writeOk)

/-- The slot list keeps its length under the collection writes. -/
theorem writeRun_length (f : Nat → Option String) :
    ∀ (is : List Nat) (slots : List (Option String)),
      (is.foldl (writeIdx f) slots).length = slots.length := by
  intro is
  induction is with
  | nil => intro slots; rfl
  | cons i is' ih =>
      intro slots
      rw [List.foldl_cons, ih]
      cases h : truthyOpt (f i) <;> simp [writeIdx, h]

/-- Value of slot `j` after the collection writes: each worker writes only
its own index, so the result depends only on whether `j` was completed and
on `f j`, not on the completion order. -/
theorem writeRun_getElem (f : Nat → Option String) :
    ∀ (is : List Nat) (slots : List (Option String)) (j : Nat),
      (is.foldl (writeIdx f) slots)[j]?
        = if j ∈ is ∧ truthyOpt (f j) then
            (if j < slots.length then some (f j) else none)
          else slots[j]? := by
  intro is
  induction is with
  | nil =>
      intro slots j
      simp
  | cons i is' ih =>
      intro slots j
      rw [List.foldl_cons, ih]
      have hlen : (writeIdx f slots i).length = slots.length := by
        cases h : truthyOpt (f i) <;> simp [writeIdx, h]
      rw [hlen]
      by_cases ht : truthyOpt (f j) = true
      · by_cases hmem : j ∈ is'
        · rw [if_pos (show j ∈ is' ∧ truthyOpt (f j) = true from ⟨hmem, ht⟩),
            if_pos (show j ∈ i :: is' ∧ truthyOpt (f j) = true from
              ⟨List.mem_cons_of_mem i hmem, ht⟩)]
        · rw [if_neg (show ¬ (j ∈ is' ∧ truthyOpt (f j) = true) from fun hh => hmem hh.1)]
          by_cases hij : i = j
          · subst hij
            rw [if_pos (show i ∈ i :: is' ∧ truthyOpt (f i) = true from
                ⟨List.mem_cons_self i is', ht⟩)]
            simp only [writeIdx]
            rw [if_pos ht]
            by_cases hj : i < slots.length
            · rw [if_pos hj, List.getElem?_set_self']
              simp [hj]
            · rw [if_neg hj, List.set_eq_of_length_le (by omega),
                List.getElem?_eq_none (by omega)]
          · rw [if_neg (show ¬ (j ∈ i :: is' ∧ truthyOpt (f j) = true) from by
                rintro ⟨hm, _⟩
                rcases List.mem_cons.mp hm with rfl | hm
                · exact hij rfl
                · exact hmem hm)]
            by_cases hti : truthyOpt (f i) = true
            · simp only [writeIdx]
              rw [if_pos hti]
              exact List.getElem?_set_ne hij
            · simp [writeIdx, hti]
      · rw [if_neg (show ¬ (j ∈ is' ∧ truthyOpt (f j) = true) from fun hh => ht hh.2),
          if_neg (show ¬ (j ∈ i :: is' ∧ truthyOpt (f j) = true) from fun hh => ht hh.2)]
        by_cases hij : i = j
        · subst hij
          simp [writeIdx, ht]
        · by_cases hti : truthyOpt (f i) = true
          · simp only [writeIdx]
            rw [if_pos hti]
            exact List.getElem?_set_ne hij
          · simp [writeIdx, hti]

/-- Collection of a list of well-formed futures (no bare `None`): the slots
are the fold of the per-index writes and the failed list collects the falsy
outcomes in completion order; no exception is raised. -/
theorem collectFutures_map_some (f : Nat → Option String) :
    ∀ (is : List Nat) (slots : List (Option String)) (failed : List Nat),
      collectFutures ⟨slots, failed, none⟩ (is.map (fun i => some (i, f i)))
        = ⟨is.foldl (writeIdx f) slots, failed ++ is.filter (fun i => !truthyOpt (f i)), none⟩ := by
  intro is
  induction is with
  | nil => intro slots failed; simp [collectFutures]
  | cons i is' ih =>
      intro slots failed
      cases h : truthyOpt (f i) with
      | true =>
          simp only [List.map_cons, collectFutures, h, if_true]
          rw [ih]
          simp [writeIdx, h, List.filter_cons]
      | false =>
          simp only [List.map_cons, collectFutures, h, Bool.false_eq_true, if_false]
          rw [ih]
          simp [writeIdx, h, List.filter_cons]

/-- Final collector state of a mock run whose completion order is any
permutation of the chunk indices: slot `j` holds `f j` when that is a
truthy success and stays empty otherwise, and the failed list is the falsy
indices in completion order.  The slots do not depend on the order. -/
theorem dispatchRun_state (n : Nat) (f : Nat → Option String) (order : List Nat)
    (h : order.Perm (List.range n)) :
    dispatchRun n f order
      = ⟨(List.range n).map (fun j => if truthyOpt (f j) then f j else none),
         order.filter (fun i => !truthyOpt (f i)), none⟩ := by
  have hs : order.foldl (writeIdx f) (List.replicate n none)
      = (List.range n).map (fun j => if truthyOpt (f j) then f j else none) := by
    apply List.ext_getElem?
    intro j
    rw [writeRun_getElem, List.length_replicate]
    by_cases hj : j < n
    · have hmem : j ∈ order := h.mem_iff.mpr (List.mem_range.mpr hj)
      by_cases ht : truthyOpt (f j) = true
      · rw [if_pos (show j ∈ order ∧ truthyOpt (f j) = true from ⟨hmem, ht⟩), if_pos hj]
        simp [List.getElem?_map, List.getElem?_range hj, ht]
      · rw [if_neg (show ¬ (j ∈ order ∧ truthyOpt (f j) = true) from fun hh => ht hh.2)]
        simp [List.getElem?_map, List.getElem?_range hj, List.getElem?_replicate, hj, ht]
    · have hmem : j ∉ order := fun hm => hj (List.mem_range.mp (h.mem_iff.mp hm))
      rw [if_neg (fun hh => hmem hh.1)]
      rw [List.getElem?_eq_none (by simp; omega), List.getElem?_eq_none (by simp; omega)]
  rw [dispatchRun, collectFutures_map_some, hs, List.nil_append]

/-- Claim C5, counterexample: with two chunks whose mock outcomes are the
successes `"a"` and `""` and completion order `[0, 1]`, the assembled output
is `"a"`, whereas the claim predicts the successful translated texts joined
with a newline, `"a\n"`.  A successful chunk whose translated text is the
empty string is dropped by the truthiness filters, so the claim as stated
fails. -/
theorem claim_C5_counterexample :
    joinlines (keptChunks (dispatchRun 2
        (fun i => if i = 0 then some ("a") else some ("")) [0, 1]).slots) = "a" ∧
    joinlines ["a", ""] = "a\n" ∧ ("a" : String) ≠ "a\n" := by
  decide

/-- Claim C5 (amended): for every chunk count `n`, every outcome assignment
`f` (with `none` a failed chunk), and every completion order that is a
permutation of the chunk indices, the collection loop raises nothing and the
assembled output equals the translated texts of the successful chunks that
are non-empty, joined with a single newline in increasing chunk-index order:
failed chunks and empty-string successes are omitted entirely, and the
result is independent of the completion order. -/
theorem claim_C5_amended_assembly (n : Nat) (f : Nat → Option String)
    (order : List Nat) (h : order.Perm (List.range n)) :
    (dispatchRun n f order).err = none ∧
    joinlines (keptChunks (dispatchRun n f order).slots)
      = joinlines ((List.range n).filterMap
          (fun i => if truthyOpt (f i) then f i else none)) := by
  rw [dispatchRun_state n f order h]
  refine ⟨rfl, ?_⟩
  have hcomp : ((fun c => if truthyOpt c then c else none)
        ∘ (fun j => if truthyOpt (f j) then f j else none))
      = (fun i => if truthyOpt (f i) then f i else none) := by
    funext i
    by_cases ht : truthyOpt (f i) = true <;> simp [ht]
  rw [keptChunks, List.filterMap_map, hcomp]

/-- Witness for claim C5 (amended) at three chunks, outcome `none` for chunk
1 and `"x"` otherwise, completing in the order `[2, 0, 1]`. -/
theorem claim_C5_amended_assembly_witness :
    (dispatchRun 3 (fun i => if i = 1 then none else some ("x")) [2, 0, 1]).err = none ∧
    joinlines (keptChunks
        (dispatchRun 3 (fun i => if i = 1 then none else some ("x")) [2, 0, 1]).slots)
      = joinlines ((List.range 3).filterMap
          (fun i => if truthyOpt (if i = 1 then none else some ("x"))
            then (if i = 1 then none else some ("x")) else none)) :=
  claim_C5_amended_assembly 3 (fun i => if i = 1 then none else some ("x")) [2, 0, 1]
    (by decide)

/-- Claim C8: a chunk whose remote translation succeeds with the empty
string is treated by the dispatcher exactly as a failure: processing the
future `(idx, "")` equals processing `(idx, None)` in every collector state,
and it appends `idx` to the announced-failure list while leaving the slots
(and hence the assembled output) untouched. -/
theorem claim_C8_empty_success_is_failure (st : CollectState)
    (rest : List (Option (Nat × Option String))) (idx : Nat) :
    collectFutures st (some (idx, some ("")) :: rest)
      = collectFutures st (some (idx, none) :: rest) ∧
    collectFutures st (some (idx, some ("")) :: rest)
      = collectFutures { st with failed := st.failed ++ [idx] } rest :=
  ⟨rfl, rfl⟩

/-- Claim C1 (evaluating the code at the failing input): a chunk whose three
attempts are all rate-limited makes `translate_chunk` fall out of its retry
loop and return a bare `None` instead of a `(chunk_idx, None)` pair; the
unpacking `idx, result = future.result()` in `translate_file` then raises a
`TypeError` which the run-level handler catches, so the run aborts without
writing any output file — contradicting the claim that only configuration
and file-I/O errors are run-fatal. -/
theorem claim_C1_rate_limit_exhaustion_aborts_run :
    (translate_chunk (fun _ => ApiEvent.rateLimited) 0).result = none ∧
    translate_file (Except.ok ("hello")) 1500 100
        (fun i _ => (translate_chunk (fun _ => ApiEvent.rateLimited) i).result) [0] true
      = (RunOutcome.aborted ("TypeError: cannot unpack non-iterable NoneType object"), []) := by
  decide

/-- Claim C7: for every chunk list and `max_requests`: when
`max_requests > 0` exactly the first `min(N, max_requests)` chunks are
submitted (the submitted list has that length and agrees with the chunk list
index by index, so trailing chunks are dropped); when `max_requests ≤ 0` all
chunks are submitted. -/
theorem claim_C7_max_requests_cap (chunks : List String) (max_requests : Int) :
    (0 < max_requests →
      (submittedChunks chunks max_requests).length
          = min chunks.length max_requests.toNat ∧
      ∀ i : Nat, i < (submittedChunks chunks max_requests).length →
        (submittedChunks chunks max_requests)[i]? = chunks[i]?) ∧
    (max_requests ≤ 0 → submittedChunks chunks max_requests = chunks) := by
  constructor
  · intro h
    rw [submittedChunks, if_pos h]
    constructor
    · rw [List.length_take]
      omega
    · intro i hi
      rw [List.length_take] at hi
      rw [List.getElem?_take]
      rw [if_pos (by omega)]
  · intro h
    rw [submittedChunks, if_neg (by omega)]

/-- Witness for claim C7 on the chunk list `["a", "b", "c"]`: a positive cap
of 2 keeps `min 3 2` chunks, and a cap of `-1` keeps everything. -/
theorem claim_C7_max_requests_cap_witness :
    (submittedChunks ["a", "b", "c"] 2).length
        = min (["a", "b", "c"] : List String).length (Int.toNat 2) ∧
    submittedChunks ["a", "b", "c"] (-1) = ["a", "b", "c"] :=
  ⟨((claim_C7_max_requests_cap ["a", "b", "c"] 2).1 (by decide)).1,
   (claim_C7_max_requests_cap ["a", "b", "c"] (-1)).2 (by decide)⟩

/-- Claim C9: with no `--token` value supplied, the credential is taken from
the `KAGI_TOKEN` environment variable; when that is also absent (or empty)
the program returns the missing-token outcome — for every `readResult` and
client, so no file is read and no chunk is submitted. -/
theorem claim_C9_token_fallback (envToken : Option String)
    (readResult : Except String String) (max_length : Nat) (max_requests : Int)
    (client : Nat → String → Option (Nat × Option String)) (order : List Nat)
    (writeOk : Bool) :
    (∀ e : String, envToken = some e → e ≠ "" →
        main_model none envToken readResult max_length max_requests client order writeOk
          = MainOutcome.ran e
              (translate_file readResult max_length max_requests client order writeOk)) ∧
    ((envToken = none ∨ envToken = some "") →
        main_model none envToken readResult max_length max_requests client order writeOk
          = MainOutcome.noToken) := by
  constructor
  · intro e he hne
    subst he
    simp [main_model, hne]
  · intro h
    rcases h with h | h <;> subst h <;> simp [main_model]

/-- Witness for claim C9: environment token `"tok"` is used when `--token`
is absent, and with no token anywhere the run stops before any work. -/
theorem claim_C9_token_fallback_witness :
    main_model none (some ("tok")) (Except.ok ("x")) 10 0 (fun _ _ => none) [] true
      = MainOutcome.ran ("tok")
          (translate_file (Except.ok ("x")) 10 0 (fun _ _ => none) [] true) ∧
    main_model none none (Except.ok ("x")) 10 0 (fun _ _ => none) [] true
      = MainOutcome.noToken :=
  ⟨(claim_C9_token_fallback (some ("tok")) (Except.ok ("x")) 10 0
      (fun _ _ => none) [] true).1 ("tok") rfl (by decide),
   (claim_C9_token_fallback none (Except.ok ("x")) 10 0
      (fun _ _ => none) [] true).2 (Or.inl rfl)⟩
